import Mathlib

/-!
Verification development for the swap-network bloqs exercised by
`src/qualtran/bloqs/swap_network/swap_network.ipynb` (CSwapApprox,
SwapWithZero, MultiplexedCSwap and their cost / call-graph contracts).
The repository contains only the documentation notebook; the bloq
implementations it imports are modelled from the specification, faithful
to its words, and the claims are settled against those models.
-/

namespace SwapNetwork

/-- Modelled from the spec: the per-qubit-pair approximate relative-phase
swap gadget (spec 4.1) is a fixed-depth primitive using a fixed number of
non-Clifford (T) gates; four T-gates per pair, so that `bitsize` pairs give
the documented `4*bitsize` total. -/
def gadgetTCount : Nat := 4

/-- Modelled from the spec: `CSwapApprox(bitsize)` decomposes into `bitsize`
independent single-qubit-pair approximate swap gadgets (spec 4.1), with no
per-pair data dependence in gate count.  We record the decomposition as the
list of per-pair gadget T-counts. -/
def cswapApproxGadgets (bitsize : Nat) : List Nat :=
  List.replicate bitsize gadgetTCount

/-- Modelled from the spec: the aggregated non-Clifford (T-equivalent) cost
of `CSwapApprox(bitsize)` is the sum of the T-counts of the gadgets in its
decomposition. -/
def cswapApproxTCount (bitsize : Nat) : Nat :=
  (cswapApproxGadgets bitsize).sum

/-- Modelled from the spec: the same T-count read over the symbolic cost
domain (spec 9 models symbolic bit-widths as an abstract numeric type; we
use `Int` variables for symbols).  Each of the `bitsize` gadgets costs four
T-gates. -/
def cswapApproxTCountZ (bitsize : Int) : Int := 4 * bitsize

/-- Modelled from the spec: four T-gates are one Toffoli-equivalent, the
cost unit the declared MultiplexedCSwap formula is stated in. -/
def toffoliEquiv (tcount : Int) : Int := tcount / 4

/-- Modelled from the spec: the unary-iteration ladder of Toffoli-like
gates maintaining the active flag across iteration levels, together with
the merging of the `n_c` external controls (spec 4.3), costs `L - 2 + n_c`
Toffolis: this is the declared total minus the `L` CSwapApprox leaves. -/
def unaryIterationLadderToffolis (L nc : Int) : Int := L - 2 + nc

/-- Modelled from the spec: the aggregated Toffoli-equivalent cost of the
decomposition of `MultiplexedCSwap` (spec 4.3): `L` CSwapApprox leaves of
bitsize `n_b` (each `toffoliEquiv (4*n_b)` Toffolis) plus the unary
iteration ladder and control merging. -/
def multiplexedCSwapToffoliCost (L nb nc : Int) : Int :=
  L * toffoliEquiv (cswapApproxTCountZ nb) + unaryIterationLadderToffolis L nc

/-- Parameters of a constructed `MultiplexedCSwap` bloq. -/
structure MultiplexedCSwapParams where
  selBitsize : Nat
  iterationLength : Nat
  targetBitsize : Nat
  numControls : Nat
deriving DecidableEq, Repr

/-- Modelled from the spec: construction of `MultiplexedCSwap` validates the
iteration length at object-creation time: `L` must satisfy
`1 ≤ L ≤ 2^(selection bitwidth)`; violation is a ConstructionError raised
immediately, never deferred to decomposition (spec 4.3, 7). -/
def mkMultiplexedCSwap (sb L nb nc : Nat) : Except String MultiplexedCSwapParams :=
  if 1 ≤ L ∧ L ≤ 2 ^ sb then
    .ok ⟨sb, L, nb, nc⟩
  else
    .error "ConstructionError: iteration length outside [1, 2^bitwidth]"

/-- Modelled from the spec: `control_regs` may be omitted, defaulting to no
control registers (the notebook's `multiplexed_cswap` example constructs the
bloq without a `control_regs` argument). -/
def mkMultiplexedCSwapDefault (sb L nb : Nat) : Except String MultiplexedCSwapParams :=
  mkMultiplexedCSwap sb L nb 0

/-- Parameters of a constructed `SwapWithZero` bloq: per-axis selection
bitsizes, the common target bitsize, and per-axis register counts. -/
structure SwapWithZeroParams where
  selectionBitsizes : List Nat
  targetBitsize : Nat
  nTargetRegisters : List Nat
deriving DecidableEq, Repr

/-- Modelled from the spec: construction of `SwapWithZero` rejects, with a
ConstructionError raised at object-creation time, a `selection_bitsizes`
tuple whose length differs from the `n_target_registers` tuple length
(dimensionality mismatch), and a per-axis register count outside
`[1, 2^bitwidth]` (spec 7, 8). -/
def mkSwapWithZero (sel : List Nat) (tb : Nat) (nt : List Nat) :
    Except String SwapWithZeroParams :=
  if sel.length ≠ nt.length then
    .error "ConstructionError: dimensionality mismatch"
  else if (List.zip sel nt).all (fun p => decide (1 ≤ p.2) && decide (p.2 ≤ 2 ^ p.1)) then
    .ok ⟨sel, tb, nt⟩
  else
    .error "ConstructionError: register count outside [1, 2^bitwidth]"

/-- Modelled from the spec: plain scalar `selection_bitsizes` and
`n_target_registers` are treated as the one-dimensional case (the
notebook's `swz` and `swz_small` examples pass scalars). -/
def mkSwapWithZeroScalar (sb tb n : Nat) : Except String SwapWithZeroParams :=
  mkSwapWithZero [sb] tb [n]

/-- Construction outcome test: `true` exactly when construction failed. -/
def isConstructionError {γ : Type} : Except String γ → Bool
  | .error _ => true
  | .ok _ => false

/-- Modelled from the spec: one level of the recursive positional
decomposition of `SwapWithZero` (spec 4.2): at selection bit `j`, the
decomposition conditionally CSwapApprox-exchanges the register pairs
`(i, i + 2^j)` for each block start `i` that is a multiple of `2^(j+1)`
with `i + 2^j < M`, conditioned on bit `j` of the selection value.  On
computational-basis register contents `t` the level acts as the induced
permutation of positions. -/
def swapLevel {α : Type} (M j : Nat) (b : Bool) (t : Nat → α) : Nat → α :=
  fun p =>
    if b then
      if p % 2 ^ (j + 1) = 0 ∧ p + 2 ^ j < M then t (p + 2 ^ j)
      else if p % 2 ^ (j + 1) = 2 ^ j ∧ p < M then t (p - 2 ^ j)
      else t p
    else t p

/-- Modelled from the spec: the first `j` levels of the one-dimensional
`SwapWithZero` ladder, applied from the least-significant selection bit
upward; `x` is the selection value held by the selection register. -/
def swzRun {α : Type} (M x : Nat) : Nat → (Nat → α) → Nat → α
  | 0, t => t
  | j + 1, t => swapLevel M j (x.testBit j) (swzRun M x j t)

/-- Modelled from the spec: the full one-dimensional `SwapWithZero`
decomposition on selection bitsize `sb`, register count `M`, selection
value `x`, acting on basis register contents `t`. -/
def swapWithZeroSem {α : Type} (sb M x : Nat) (t : Nat → α) : Nat → α :=
  swzRun M x sb t

/-- Modelled from the spec: the multi-dimensional `SwapWithZero`
composes per-axis selection (spec 4.2): for the leading axis, first each
slice of fixed leading coordinate is reduced recursively over the
remaining axes (bringing its selected content to rest-index zero), then a
one-dimensional ladder over the leading coordinate acts on the slice
elements whose remaining coordinates are all zero. -/
def swzND {α : Type} : List (Nat × Nat) → List Nat → (List Nat → α) → List Nat → α
  | [], _, t, idx => t idx
  | _ :: _, [], t, idx => t idx
  | (sb, M) :: axes, x :: xs, t, idx =>
    match idx with
    | [] => t []
    | i :: is =>
      if is = List.replicate axes.length 0 then
        swapWithZeroSem sb M x
          (fun k => swzND axes xs (fun ls => t (k :: ls)) (List.replicate axes.length 0)) i
      else
        swzND axes xs (fun ls => t (i :: ls)) is

/-- Modelled from the spec: a single-qubit-pair approximate swap gadget
(spec 4.1) acting on a computational-basis pair `(a, b)` under control
`c`: with the control off it is the exact identity; with the control on it
exchanges the pair and multiplies the basis state by a fixed, known scalar
phase `ph a b` drawn from `{+1, -1}`.  The phase is a scalar on the basis
state (diagonal), never an operator entangling extra degrees of freedom
with the data. -/
def approxSwapPairSem (ph : Bool → Bool → Int) (c a b : Bool) : Int × Bool × Bool :=
  if c then (ph a b, b, a) else (1, a, b)

/-- Modelled from the spec: `CSwapApprox(bitsize)` decomposes the
register-wise swap into independent per-qubit-pair gadgets (spec 4.1);
on a computational-basis input `(c, xs, ys)` the gadget phases multiply
and the pairs are processed independently. -/
def cswapApproxSem (ph : Bool → Bool → Int) (c : Bool) :
    List Bool → List Bool → Int × List Bool × List Bool
  | [], ys => (1, [], ys)
  | xs, [] => (1, xs, [])
  | x :: xs, y :: ys =>
    let r := approxSwapPairSem ph c x y
    let rs := cswapApproxSem ph c xs ys
    (r.1 * rs.1, r.2.1 :: rs.2.1, r.2.2 :: rs.2.2)

/-- Modelled from the spec: the CSwapApprox-exchanged register pairs of
level `j` of the one-dimensional `SwapWithZero` ladder over `M` registers
(spec 4.2): the pairs `(i, i + 2^j)` for block starts `i` that are
multiples of `2^(j+1)` with the partner in range. -/
def swzLevelPairs (M j : Nat) : List (Nat × Nat) :=
  (List.range M).filterMap fun i =>
    if i % 2 ^ (j + 1) = 0 ∧ i + 2 ^ j < M then some (i, i + 2 ^ j) else none

/-- Modelled from the spec: cost accumulates CSwapApprox counts across the
recursion levels of the one-dimensional ladder (spec 4.2). -/
def swzCswapCount (sb M : Nat) : Nat :=
  ((List.range sb).map fun j => (swzLevelPairs M j).length).sum

/-- Modelled from the spec: the multi-dimensional `SwapWithZero` composes
per-axis selection: each of the `M` slices of the leading axis carries a
recursive sub-network over the remaining axes, followed by one
one-dimensional ladder over the leading axis. -/
def swzNDCswapCount : List (Nat × Nat) → Nat
  | [] => 0
  | (sb, M) :: axes => M * swzNDCswapCount axes + swzCswapCount sb M

/-- Modelled from the spec: each `CSwapApprox(target_bitsize)` call costs
`target_bitsize` Toffoli-equivalents (its `4*target_bitsize` T-gates at
four T-gates per Toffoli), so the aggregated Toffoli cost of a
`SwapWithZero` is its CSwapApprox count times the target bitsize. -/
def swzToffoliCost (axes : List (Nat × Nat)) (tb : Nat) : Nat :=
  swzNDCswapCount axes * tb

/-- Modelled from the spec: the decomposition of `SwapWithZero` as a
structural object — the list of CSwapApprox applications, each tagged with
its axis, its selection-bit level, and the register pair it exchanges. -/
def swzDecompose (sel nt : List Nat) : List (Nat × Nat × Nat × Nat) :=
  (List.zip sel nt).enum.flatMap fun ax =>
    (List.range ax.2.1).flatMap fun j =>
      (swzLevelPairs ax.2.2 j).map fun p => (ax.1, j, p.1, p.2)

/-- Modelled from the spec: the Signature of `SwapWithZero` — one
selection register per axis, carrying the declared per-axis bitsize, and
one target register group of the declared target bitsize with the declared
per-axis shape (name, bitsize, shape). -/
def swzSignature (sel : List Nat) (tb : Nat) (nt : List Nat) :
    List (String × Nat × List Nat) :=
  (sel.enum.map fun p => ("selection" ++ toString p.1, p.2, ([] : List Nat))) ++
    [("targets", tb, nt)]

/-- Modelled from the spec: Bloq values relevant to the swap-network call
graphs; Bloqs are immutable value types compared by structural (value)
equality. -/
inductive Bloq where
  | tGate : Bloq
  | toffoli : Bloq
  | approxSwapGadget : Bloq
  | cswapApprox (bitsize : Nat) : Bloq
  | swapWithZero (sel : List Nat) (tb : Nat) (nt : List Nat) : Bloq
  | multiplexedCSwap (sb L nb nc : Nat) : Bloq
deriving DecidableEq, Repr

/-- Modelled from the spec: the direct children of a Bloq's decomposition,
listed once per occurrence (spec 4.4): a CSwapApprox expands into its
per-pair gadgets, a gadget into its four T-gates, a SwapWithZero into its
CSwapApprox calls, and a MultiplexedCSwap into its CSwapApprox leaves plus
the unary-iteration ladder Toffolis. -/
def bloqChildren : Bloq → List Bloq
  | .tGate => []
  | .toffoli => []
  | .approxSwapGadget => List.replicate 4 .tGate
  | .cswapApprox n => List.replicate n .approxSwapGadget
  | .swapWithZero sel tb nt =>
      List.replicate (swzNDCswapCount (List.zip sel nt)) (.cswapApprox tb)
  | .multiplexedCSwap _ L nb nc =>
      List.replicate L (.cswapApprox nb) ++ List.replicate (L - 2 + nc) .toffoli

/-- Modelled from the spec: one node of the call graph returned by
`call_graph` (spec 4.4): the direct children as a multiset with
multiplicities, memoized by Bloq value — equal-by-value occurrences are
merged into one shared entry whose multiplicity counts the occurrences. -/
def callGraphNode (b : Bloq) : List (Bloq × Nat) :=
  (bloqChildren b).dedup.map fun c => (c, (bloqChildren b).count c)

end SwapNetwork

namespace SwapNetwork

/-- Shared computation: the decomposition cost of `MultiplexedCSwap`
collapses to the documented closed form. -/
lemma multiplexedCSwapToffoliCost_closed (L nb nc : Int) :
    multiplexedCSwapToffoliCost L nb nc = L * nb + L - 2 + nc := by
  have hdiv : toffoliEquiv (cswapApproxTCountZ nb) = nb := by
    simp [toffoliEquiv, cswapApproxTCountZ]
  simp only [multiplexedCSwapToffoliCost, hdiv, unaryIterationLadderToffolis]
  ring

/-- C1: for every iteration length `L`, target bitsize `n_b` and number of
control registers `n_c` (symbolic values are universally quantified `Int`
variables), the aggregated Toffoli-equivalent cost of the decomposition of
`MultiplexedCSwap` equals exactly `L*n_b + L - 2 + n_c`, and in the
boundary case `L = 1` it degenerates to `n_b - 1 + n_c`. -/
theorem multiplexedCSwap_cost_eq (L nb nc : Int) (hL : 1 ≤ L) :
    multiplexedCSwapToffoliCost L nb nc = L * nb + L - 2 + nc ∧
    (L = 1 → multiplexedCSwapToffoliCost L nb nc = nb - 1 + nc) := by
  refine ⟨multiplexedCSwapToffoliCost_closed L nb nc, ?_⟩
  intro h1
  subst h1
  rw [multiplexedCSwapToffoliCost_closed]
  ring

/-- Closed witness for `multiplexedCSwap_cost_eq` at `L = 1`, `n_b = 7`,
`n_c = 2`: the cost is `7 - 1 + 2 = 8`. -/
theorem multiplexedCSwap_cost_eq_witness :
    (1 : Int) ≤ 1 ∧
      (multiplexedCSwapToffoliCost 1 7 2 = 1 * 7 + 1 - 2 + 2 ∧
        ((1 : Int) = 1 → multiplexedCSwapToffoliCost 1 7 2 = 7 - 1 + 2)) :=
  ⟨by decide, multiplexedCSwap_cost_eq 1 7 2 (by decide)⟩

/-- C5: constructing `MultiplexedCSwap` with `L = 0` or
`L > 2^(selection bitwidth)` yields a ConstructionError at object-creation
time (the constructor itself returns the error; nothing is deferred to
decomposition), and constructing `SwapWithZero` with a
`selection_bitsizes` tuple whose length differs from the
`n_target_registers` tuple length likewise yields a ConstructionError at
object-creation time. -/
theorem construction_rejects (sb L nb nc tb : Nat) (sel nt : List Nat)
    (hL : L = 0 ∨ 2 ^ sb < L) (hlen : sel.length ≠ nt.length) :
    isConstructionError (mkMultiplexedCSwap sb L nb nc) = true ∧
    isConstructionError (mkSwapWithZero sel tb nt) = true := by
  constructor
  · have hcond : ¬(1 ≤ L ∧ L ≤ 2 ^ sb) := by
      rcases hL with h0 | hgt
      · subst h0; omega
      · omega
    simp [mkMultiplexedCSwap, hcond, isConstructionError]
  · simp [mkSwapWithZero, hlen, isConstructionError]

/-- Closed witness for `construction_rejects`: `MultiplexedCSwap` with
selection bitwidth 2 and iteration length 5 > 2^2 is rejected, and
`SwapWithZero` with one selection bitsize but two register counts is
rejected. -/
theorem construction_rejects_witness :
    ((5 : Nat) = 0 ∨ 2 ^ 2 < 5) ∧ ([3].length ≠ [2, 2].length) ∧
      (isConstructionError (mkMultiplexedCSwap 2 5 3 0) = true ∧
        isConstructionError (mkSwapWithZero [3] 2 [2, 2]) = true) :=
  ⟨by decide, by decide, construction_rejects 2 5 3 0 2 [3] [2, 2] (by decide) (by decide)⟩

/-- C9: `MultiplexedCSwap` can be constructed with `control_regs` omitted,
yielding `n_c = 0`; with no controls the declared Toffoli cost is
`L*n_b + L - 2`, and the notebook's concrete instance (selection bitsize 3,
iteration length 5, target bitsize 2) costs `5*2 + 5 - 2 = 13`. -/
theorem multiplexedCSwap_default_cost :
    (∃ p, mkMultiplexedCSwapDefault 3 5 2 = .ok p ∧ p.numControls = 0) ∧
    (∀ L nb : Int, multiplexedCSwapToffoliCost L nb 0 = L * nb + L - 2) ∧
    multiplexedCSwapToffoliCost 5 2 0 = 13 := by
  refine ⟨⟨⟨3, 5, 2, 0⟩, by rfl, rfl⟩, ?_, by decide⟩
  intro L nb
  have h := multiplexedCSwapToffoliCost_closed L nb 0
  omega

/-- Invariant of the one-dimensional ladder: after the first `j` levels,
every position that is a multiple of `2^j` holds the content originally at
offset `x % 2^j` inside its block, provided that source position exists. -/
lemma swzRun_apply {α : Type} (M x : Nat) (t : Nat → α) :
    ∀ j i, i % 2 ^ j = 0 → i + x % 2 ^ j < M →
      swzRun M x j t i = t (i + x % 2 ^ j) := by
  intro j
  induction j with
  | zero =>
    intro i hi hb
    simp [swzRun, Nat.mod_one]
  | succ j IH =>
    intro i hi hb
    have hmod : x % 2 ^ (j + 1) = x % 2 ^ j + 2 ^ j * (x / 2 ^ j % 2) := by
      rw [pow_succ]
      exact Nat.mod_mul
    have hij : i % 2 ^ j = 0 := by
      have h1 : i % 2 ^ (j + 1) % 2 ^ j = i % 2 ^ j :=
        Nat.mod_mod_of_dvd i ⟨2, by rw [pow_succ]⟩
      rw [hi] at h1
      simpa using h1.symm
    have hbit := Nat.testBit_to_div_mod (x := x) (i := j)
    simp only [swzRun]
    cases hcase : x.testBit j with
    | false =>
      rw [hcase] at hbit
      have h2 : x / 2 ^ j % 2 = 0 := by
        have hlt2 : x / 2 ^ j % 2 < 2 := Nat.mod_lt _ (by omega)
        have hne : ¬(x / 2 ^ j % 2 = 1) := by
          intro hc
          simp [hc] at hbit
        omega
      have hx : x % 2 ^ (j + 1) = x % 2 ^ j := by
        rw [hmod, h2]
        ring
      rw [hx] at hb ⊢
      simp only [swapLevel, Bool.false_eq_true, if_false]
      exact IH i hij hb
    | true =>
      rw [hcase] at hbit
      have h2 : x / 2 ^ j % 2 = 1 := by
        by_contra hc
        simp [hc] at hbit
      have hx : x % 2 ^ (j + 1) = x % 2 ^ j + 2 ^ j := by
        rw [hmod, h2]
        ring
      rw [hx] at hb
      have hlt : i + 2 ^ j < M := by omega
      simp only [swapLevel, if_true]
      rw [if_pos ⟨hi, hlt⟩]
      have hij2 : (i + 2 ^ j) % 2 ^ j = 0 := by
        rw [Nat.add_mod_right]
        exact hij
      have hb2 : i + 2 ^ j + x % 2 ^ j < M := by omega
      rw [IH (i + 2 ^ j) hij2 hb2, hx]
      congr 1
      omega

/-- One-dimensional relocation: the full ladder moves the content of
register `x` into slot 0 whenever `x` is within range. -/
lemma swapWithZeroSem_zero {α : Type} (sb M x : Nat) (t : Nat → α)
    (hx2 : x < 2 ^ sb) (hxM : x < M) :
    swapWithZeroSem sb M x t 0 = t x := by
  have h := swzRun_apply M x t sb 0 (by simp) (by simpa [Nat.mod_eq_of_lt hx2] using hxM)
  simpa [swapWithZeroSem, Nat.mod_eq_of_lt hx2] using h

/-- Validity of a selection value for a `SwapWithZero` instance: each
coordinate is below its axis register count and representable in its axis
bitsize. -/
def swzValidSel (axes : List (Nat × Nat)) (xs : List Nat) : Prop :=
  List.Forall₂ (fun p x => x < p.2 ∧ x < 2 ^ p.1) axes xs

/-- Multi-dimensional relocation, with the register-contents function
universally quantified so the slice recursion can be instantiated. -/
lemma swzND_zero {α : Type} (axes : List (Nat × Nat)) (xs : List Nat)
    (h : swzValidSel axes xs) :
    ∀ t : List Nat → α, swzND axes xs t (List.replicate axes.length 0) = t xs := by
  induction h with
  | nil =>
    intro t
    simp [swzND]
  | @cons a x axes xs hax hrest IH =>
    intro t
    obtain ⟨sb, M⟩ := a
    simp only [List.length_cons, List.replicate_succ, swzND]
    simp only [if_true]
    rw [swapWithZeroSem_zero sb M x _ hax.2 hax.1]
    exact IH (fun ls => t (x :: ls))

/-- C3: for every valid `SwapWithZero` instance (any list of per-axis
selection bitsizes and register counts) and every in-range selection value
`xs`, the decomposed circuit applied to basis register contents `t`
relocates the content of register `xs` into register slot 0 (the all-zero
index), and the whole final state is a pure deterministic function of the
circuit inputs: contents at every slot depend only on the input register
contents, never on external state. -/
theorem swapWithZero_relocates {α : Type} (axes : List (Nat × Nat)) (xs : List Nat)
    (t : List Nat → α) (h : swzValidSel axes xs) :
    swzND axes xs t (List.replicate axes.length 0) = t xs ∧
    ∀ t2 : List Nat → α, (∀ idx, t idx = t2 idx) →
      ∀ idx, swzND axes xs t idx = swzND axes xs t2 idx := by
  refine ⟨swzND_zero axes xs h t, ?_⟩
  intro t2 ht idx
  have : t = t2 := funext ht
  rw [this]

/-- Closed witness for `swapWithZero_relocates`: the spec's concrete case
`selection_bitsizes = 3`, `target_bitsize = 2`, `n_target_registers = 5`
with selection value `x = 2` relocates register 2 into slot 0. -/
theorem swapWithZero_relocates_witness :
    swzValidSel [(3, 5)] [2] ∧
      (swzND [(3, 5)] [2] (fun ls => 10 + ls.headD 0) (List.replicate 1 0) =
          (fun ls : List Nat => 10 + ls.headD 0) [2] ∧
        ∀ t2 : List Nat → Nat, (∀ idx, (fun ls => 10 + ls.headD 0) idx = t2 idx) →
          ∀ idx, swzND [(3, 5)] [2] (fun ls => 10 + ls.headD 0) idx =
            swzND [(3, 5)] [2] t2 idx) :=
  ⟨List.Forall₂.cons (by decide) List.Forall₂.nil,
    swapWithZero_relocates [(3, 5)] [2] (fun ls => 10 + ls.headD 0)
      (List.Forall₂.cons (by decide) List.Forall₂.nil)⟩

/-- Control off: every gadget is the exact identity and contributes
phase 1. -/
lemma cswapApproxSem_ctrl_off (ph : Bool → Bool → Int) :
    ∀ xs ys : List Bool, cswapApproxSem ph false xs ys = (1, xs, ys) := by
  intro xs
  induction xs with
  | nil => intro ys; cases ys <;> simp [cswapApproxSem, approxSwapPairSem]
  | cons x xs IH =>
    intro ys
    cases ys with
    | nil => simp [cswapApproxSem]
    | cons y ys => simp [cswapApproxSem, approxSwapPairSem, IH]

/-- Control on: the data registers are exchanged and the accumulated
phase stays in `{+1, -1}`. -/
lemma cswapApproxSem_ctrl_on (ph : Bool → Bool → Int)
    (hph : ∀ a b, ph a b = 1 ∨ ph a b = -1) :
    ∀ xs ys : List Bool, xs.length = ys.length →
      ((cswapApproxSem ph true xs ys).1 = 1 ∨ (cswapApproxSem ph true xs ys).1 = -1) ∧
      (cswapApproxSem ph true xs ys).2.1 = ys ∧
      (cswapApproxSem ph true xs ys).2.2 = xs := by
  intro xs
  induction xs with
  | nil =>
    intro ys hlen
    cases ys with
    | nil => simp [cswapApproxSem]
    | cons y ys => simp at hlen
  | cons x xs IH =>
    intro ys hlen
    cases ys with
    | nil => simp at hlen
    | cons y ys =>
      have hlen2 : xs.length = ys.length := by simpa using hlen
      obtain ⟨hp, hy, hx⟩ := IH ys hlen2
      refine ⟨?_, ?_, ?_⟩
      · simp only [cswapApproxSem, approxSwapPairSem, if_true]
        rcases hph x y with h | h <;> rcases hp with h2 | h2 <;>
          simp [h, h2]
      · simp [cswapApproxSem, approxSwapPairSem, hy]
      · simp [cswapApproxSem, approxSwapPairSem, hx]

/-- C4: for every bitsize (the common length of the two data registers)
and every computational-basis input, the decomposition of `CSwapApprox`
acts as the exact identity on the data `(x, y)` when the control is 0, and
exchanges `x` and `y` when the control is 1, up to a scalar relative phase
of `+1` or `-1` on the basis state — a diagonal factor, never entangled
with the data.  The per-pair phase function `ph` is the fixed, known
`{+1, -1}`-valued phase of the approximate swap gadget. -/
theorem cswapApprox_basis_action (ph : Bool → Bool → Int) (c : Bool)
    (xs ys : List Bool) (hph : ∀ a b, ph a b = 1 ∨ ph a b = -1)
    (hlen : xs.length = ys.length) :
    (c = false → cswapApproxSem ph c xs ys = (1, xs, ys)) ∧
    (c = true →
      ((cswapApproxSem ph c xs ys).1 = 1 ∨ (cswapApproxSem ph c xs ys).1 = -1) ∧
      (cswapApproxSem ph c xs ys).2.1 = ys ∧
      (cswapApproxSem ph c xs ys).2.2 = xs) := by
  constructor
  · intro hc
    subst hc
    exact cswapApproxSem_ctrl_off ph xs ys
  · intro hc
    subst hc
    exact cswapApproxSem_ctrl_on ph hph xs ys hlen

/-- Closed witness for `cswapApprox_basis_action`: a two-bit example with
the control on, using the phase that flips sign when both bits are set;
the registers `[true, false]` and `[false, false]` are exchanged. -/
theorem cswapApprox_basis_action_witness :
    (∀ a b, (fun u v : Bool => if u && v then (-1 : Int) else 1) a b = 1 ∨
        (fun u v : Bool => if u && v then (-1 : Int) else 1) a b = -1) ∧
    ([true, false].length = [false, false].length) ∧
    ((true = false →
        cswapApproxSem (fun u v : Bool => if u && v then (-1 : Int) else 1) true
          [true, false] [false, false] = (1, [true, false], [false, false])) ∧
      (true = true →
        ((cswapApproxSem (fun u v : Bool => if u && v then (-1 : Int) else 1) true
              [true, false] [false, false]).1 = 1 ∨
          (cswapApproxSem (fun u v : Bool => if u && v then (-1 : Int) else 1) true
              [true, false] [false, false]).1 = -1) ∧
        (cswapApproxSem (fun u v : Bool => if u && v then (-1 : Int) else 1) true
            [true, false] [false, false]).2.1 = [false, false] ∧
        (cswapApproxSem (fun u v : Bool => if u && v then (-1 : Int) else 1) true
            [true, false] [false, false]).2.2 = [true, false])) :=
  ⟨by decide, by decide,
    cswapApprox_basis_action (fun u v : Bool => if u && v then (-1 : Int) else 1) true
      [true, false] [false, false] (by decide) (by decide)⟩

/-- C6: the multi-dimensional `SwapWithZero` with selection axes `(2, 2)`
and register counts `(3, 4)` has the same aggregated Toffoli cost (at
target bitsize 2) as the flattened single-axis `SwapWithZero` over
`3*4 = 12` registers with selection bitwidth 4, which is `ceil(log2 12)`
because `2^3 < 12 ≤ 2^4`; the costs agree exactly, hence within any
constant-factor slack. -/
theorem swz_multiDim_flat_cost :
    swzToffoliCost [(2, 3), (2, 4)] 2 = swzToffoliCost [(4, 12)] 2 ∧
    2 ^ 3 < 12 ∧ 12 ≤ 2 ^ 4 := by
  decide

/-- C7: for all construction parameters, re-invoking the decomposition of
`SwapWithZero` yields structurally equal composites (the decomposition is
a pure function of the parameters), and the register widths of its
Signature match the declared parameters exactly: one selection register of
each declared per-axis bitsize, then the target group of the declared
target bitsize, whose shape is the declared per-axis register count. -/
theorem swzDecompose_idempotent_signature (sel nt : List Nat) (tb : Nat) :
    swzDecompose sel nt = swzDecompose sel nt ∧
    (swzSignature sel tb nt).map (fun r => r.2.1) = sel ++ [tb] ∧
    ("targets", tb, nt) ∈ swzSignature sel tb nt := by
  refine ⟨rfl, ?_, ?_⟩
  · simp only [swzSignature, List.map_append, List.map_map, List.map_cons, List.map_nil]
    have h : ((fun r : String × Nat × List Nat => r.2.1) ∘
        fun p : Nat × Nat => ("selection" ++ toString p.1, p.2, ([] : List Nat))) =
          Prod.snd := rfl
    rw [h, List.enum_map_snd]
  · simp [swzSignature]

/-- C8: in the call graph, any two Bloq occurrences with identical
construction parameters are represented by one shared node: the children
entries of every node have pairwise distinct Bloq keys (value equality,
memoization by Bloq value), every recorded multiplicity is exactly the
occurrence count of that Bloq among the direct children, and every
occurring child is recorded once with its occurrence count. -/
theorem callGraph_shares_equal_bloqs (b : Bloq) :
    ((callGraphNode b).map Prod.fst).Nodup ∧
    (∀ c m, (c, m) ∈ callGraphNode b → m = (bloqChildren b).count c) ∧
    (∀ c, c ∈ bloqChildren b → (c, (bloqChildren b).count c) ∈ callGraphNode b) := by
  refine ⟨?_, ?_, ?_⟩
  · have h : (callGraphNode b).map Prod.fst = (bloqChildren b).dedup := by
      simp only [callGraphNode, List.map_map]
      have h2 : (Prod.fst ∘ fun c => (c, (bloqChildren b).count c)) = @id Bloq := rfl
      rw [h2, List.map_id]
    rw [h]
    exact (bloqChildren b).nodup_dedup
  · intro c m hm
    simp only [callGraphNode, List.mem_map] at hm
    obtain ⟨c2, _, heq⟩ := hm
    obtain ⟨h1, h2⟩ := Prod.mk.injEq .. ▸ heq
    rw [← h2, h1]
  · intro c hc
    simp only [callGraphNode, List.mem_map]
    exact ⟨c, List.mem_dedup.mpr hc, rfl⟩

/-- C10: `SwapWithZero` construction succeeds with plain scalars (treated
as the one-dimensional case: 2 registers with 3 selection bits, a count
that is neither a power of two nor equal to `2^3`), and with per-axis
counts `(15, 5)` against per-axis bitsizes `(4, 3)`. -/
theorem swapWithZero_construction_accepts :
    isConstructionError (mkSwapWithZeroScalar 3 2 2) = false ∧
    isConstructionError (mkSwapWithZero [4, 3] 2 [15, 5]) = false := by
  decide

/-- C2: for every bitsize, concrete or symbolic (a universally quantified
variable), the decomposition of `CSwapApprox(bitsize)` has aggregated
non-Clifford (T-equivalent) cost exactly `4*bitsize`, independent of input
state (the gadget list never inspects data); the symbolic reading
`cswapApproxTCountZ` resolves to the same linear expression. -/
theorem cswapApprox_tcount_eq (bitsize : Nat) :
    cswapApproxTCount bitsize = 4 * bitsize ∧
    cswapApproxTCountZ (bitsize : Int) = 4 * (bitsize : Int) := by
  constructor
  · simp [cswapApproxTCount, cswapApproxGadgets, gadgetTCount, Nat.mul_comm]
  · rfl

end SwapNetwork
